import Mathlib

/-!
Shallow embedding of the decision-making core of the Tic-Tac-Toe program
(`TicTacToe_Python_Capstone_Project_1.py`): board model, win detection,
terminal and heuristic evaluation, minimax with alpha-beta pruning, the
AI move policies, and the undo operation.  The Python code mutates a
module-level `board` in place; here the board is threaded explicitly, so
every mutating operation takes and returns the state it touches.
-/

namespace TTT

/-- A player mark: the human plays `X`, the AI plays `O`. -/
inductive Mark where
  | X
  | O
deriving DecidableEq, Repr

/-- A cell of the board: `none` models Python's `None` (empty). -/
abbrev Cell := Option Mark

/-- The board, a list of rows, as the Python 2-D list `board`. -/
abbrev Board := List (List Cell)

/-- The module-level configuration globals `BOARD_ROWS`, `BOARD_COLS`,
`WIN_LEN` of the Python program. -/
structure Config where
  rows : Nat
  cols : Nat
  winLen : Nat
deriving DecidableEq, Repr

/-- Reading `board[r][c]` (in-range in every use by the program). -/
def getCell (b : Board) (r c : Nat) : Cell :=
  (b.getD r []).getD c none

/-- Writing `board[r][c] = v` (in-range in every use by the program). -/
def setCell (b : Board) (r c : Nat) (v : Cell) : Board :=
  b.set r ((b.getD r []).set c v)

/-- Row-major list of all coordinates, the iteration order of the
program's nested `for r in range(BOARD_ROWS): for c in range(BOARD_COLS)`
loops. -/
def allCells (cfg : Config) : List (Nat × Nat) :=
  (List.range cfg.rows).flatMap (fun r => (List.range cfg.cols).map (fun c => (r, c)))

/-- `available_square(row, col)` (line 1985). -/
def available_square (cfg : Config) (b : Board) (row col : Nat) : Bool :=
  decide (row < cfg.rows) && decide (col < cfg.cols) && (getCell b row col == none)

/-- `is_board_full()` (line 1988). -/
def is_board_full (cfg : Config) (b : Board) : Bool :=
  (List.range cfg.rows).all (fun r => (List.range cfg.cols).all (fun c => (getCell b r c).isSome))

/-- The horizontal windows scanned by `get_winning_line` (lines 1997–2002),
in scan order: row by row, sliding start column. -/
def horizWindows (cfg : Config) : List (List (Nat × Nat)) :=
  (List.range cfg.rows).flatMap (fun r =>
    (List.range (cfg.cols - cfg.winLen + 1)).map (fun sc =>
      (List.range cfg.winLen).map (fun i => (r, sc + i))))

/-- The vertical windows scanned by `get_winning_line` (lines 2003–2007). -/
def vertWindows (cfg : Config) : List (List (Nat × Nat)) :=
  (List.range cfg.cols).flatMap (fun c =>
    (List.range (cfg.rows - cfg.winLen + 1)).map (fun sr =>
      (List.range cfg.winLen).map (fun i => (sr + i, c))))

/-- The ↘ diagonal windows scanned by `get_winning_line` (lines 2008–2012). -/
def diagWindows (cfg : Config) : List (List (Nat × Nat)) :=
  (List.range (cfg.rows - cfg.winLen + 1)).flatMap (fun sr =>
    (List.range (cfg.cols - cfg.winLen + 1)).map (fun sc =>
      (List.range cfg.winLen).map (fun i => (sr + i, sc + i))))

/-- The ↙ diagonal windows scanned by `get_winning_line` (lines 2013–2017);
the start column runs over Python's `range(WIN_LEN - 1, BOARD_COLS)`. -/
def antidiagWindows (cfg : Config) : List (List (Nat × Nat)) :=
  (List.range (cfg.rows - cfg.winLen + 1)).flatMap (fun sr =>
    ((List.range (cfg.cols - (cfg.winLen - 1))).map (fun j => cfg.winLen - 1 + j)).map (fun sc =>
      (List.range cfg.winLen).map (fun i => (sr + i, sc - i))))

/-- All windows in the priority order of `get_winning_line`:
horizontal, then vertical, then ↘ diagonal, then ↙ diagonal. -/
def allWindows (cfg : Config) : List (List (Nat × Nat)) :=
  horizWindows cfg ++ vertWindows cfg ++ diagWindows cfg ++ antidiagWindows cfg

/-- The `all(board[...] == player_mark ...)` test applied to one window. -/
def windowAll (b : Board) (mark : Mark) (w : List (Nat × Nat)) : Bool :=
  w.all (fun rc => getCell b rc.1 rc.2 == some mark)

/-- `get_winning_line(player_mark)` (lines 1991–2018): the nested loops
with early `return` scan the windows in `allWindows` order and return the
first fully-marked one, else `None`. -/
def get_winning_line (cfg : Config) (b : Board) (mark : Mark) : Option (List (Nat × Nat)) :=
  (allWindows cfg).find? (windowAll b mark)

/-- `check_win(player_mark)` (line 2056). -/
def check_win (cfg : Config) (b : Board) (mark : Mark) : Bool :=
  (get_winning_line cfg b mark).isSome

/-- The game modes relevant to move handling and undo. -/
inductive GameMode where
  | PVP
  | AI_EASY
  | AI_MEDIUM
  | AI_HARD
deriving DecidableEq, Repr

/-- The membership test `game_mode in ["AI_EASY", "AI_MEDIUM", "AI_HARD"]`. -/
def GameMode.isAi : GameMode → Bool
  | .PVP => false
  | .AI_EASY => true
  | .AI_MEDIUM => true
  | .AI_HARD => true

/-- The mutable module-level game state touched by `mark_square` and
`undo_last_move`: `board`, `move_history`, `move_count`, `player`. -/
structure GameState where
  board : Board
  move_history : List (Nat × Nat × Mark)
  move_count : Int
  player : Mark
deriving DecidableEq, Repr

/-- `mark_square(row, col, mark)` (lines 1908–1916): writes the cell,
appends to the history and bumps the counter, with no validity check
(the `animate` flag only drives rendering and is dropped). -/
def mark_square (s : GameState) (row col : Nat) (mark : Mark) : GameState :=
  { s with
    board := setCell s.board row col (some mark)
    move_history := s.move_history ++ [(row, col, mark)]
    move_count := s.move_count + 1 }

/-- One iteration of the undo loop body (lines 1931–1937): pop the last
history entry, clear its cell, decrement the counter, set `player` to the
popped mark.  `n` counts the remaining iterations of `for _ in range(...)`. -/
def undoPops : Nat → GameState → GameState
  | 0, s => s
  | n + 1, s =>
    match s.move_history.getLast? with
    | none => s
    | some (row, col, mark) =>
      undoPops n
        { board := setCell s.board row col none
          move_history := s.move_history.dropLast
          move_count := s.move_count - 1
          player := mark }

/-- `undo_last_move()` (lines 1918–1942), returning Python's `True`/`False`
alongside the updated state; the feedback timer is rendering-only and
dropped. -/
def undo_last_move (mode : GameMode) (s : GameState) : Bool × GameState :=
  if s.move_history = [] then (false, s)
  else
    let moves_to_undo := if mode.isAi then min 2 s.move_history.length else 1
    (true, undoPops moves_to_undo s)

/-- The guarded placement pattern at the click-handling call sites
(lines 3735–3736 and 3750–3751): `if available_square(...): mark_square(...)`;
a `false` first component models the click being silently ignored. -/
def guarded_place (cfg : Config) (s : GameState) (row col : Nat) (mark : Mark) :
    Bool × GameState :=
  if available_square cfg s.board row col then (true, mark_square s row col mark)
  else (false, s)

/-- `evaluate()` (lines 2174–2178). -/
def evaluate (cfg : Config) (b : Board) : Int :=
  if check_win cfg b .O then 1
  else if check_win cfg b .X then -1
  else 0

/-- The inner helper `eval_line(cells)` of `heuristic_eval` (lines 2190–2213),
with Python's float constants embedded as the exact rationals they denote. -/
def eval_line (cfg : Config) (cells : List Cell) : ℚ :=
  let o_count := cells.count (some .O)
  let x_count := cells.count (some .X)
  let empty := cells.count none
  if o_count > 0 ∧ x_count = 0 then
    if o_count = cfg.winLen - 1 ∧ empty = 1 then 1/2
    else if o_count = cfg.winLen - 2 ∧ empty = 2 then 1/5
    else (1/20 : ℚ) * o_count
  else if x_count > 0 ∧ o_count = 0 then
    if x_count = cfg.winLen - 1 ∧ empty = 1 then -(1/2)
    else if x_count = cfg.winLen - 2 ∧ empty = 2 then -(1/5)
    else -(1/20 : ℚ) * x_count
  else 0

/-- The cell contents of a window, as each `line = [board[...] ...]`
comprehension of `heuristic_eval`. -/
def windowCells (b : Board) (w : List (Nat × Nat)) : List Cell :=
  w.map (fun rc => getCell b rc.1 rc.2)

/-- `heuristic_eval()` (lines 2180–2239): sums `eval_line` over the same
row, column, ↘ and ↙ windows that `get_winning_line` scans. -/
def heuristic_eval (cfg : Config) (b : Board) : ℚ :=
  ((allWindows cfg).map (fun w => eval_line cfg (windowCells b w))).sum

/-- The row-major list of empty cells, as the comprehension
`[(r, c) ... if board[r][c] is None]` of `ai_move_easy`/`ai_move_hard`,
also used to count `empty_count` in `minimax`. -/
def empty_cells (cfg : Config) (b : Board) : List (Nat × Nat) :=
  (allCells cfg).filter (fun rc => getCell b rc.1 rc.2 == none)

/-- The dynamic depth limit computed by `minimax` when called with
`max_depth=None` (lines 2244–2257). -/
def dynamic_max_depth (cfg : Config) (b : Board) : Nat :=
  let empty_count := (empty_cells cfg b).length
  if cfg.rows ≥ 4 then
    if empty_count > 12 then 4
    else if empty_count > 8 then 5
    else if empty_count > 4 then 6
    else 10
  else 15

/-- The candidate loop inside one `minimax` node (lines 2270–2297): scan the
cells row-major, skip occupied ones, place the side's mark, recurse through
`recur`, restore the cell, fold max/min and alpha/beta, and break out of
both loops as soon as `beta <= alpha`.  `recur` is the recursive call at
one ply deeper (smaller fuel). -/
def mmLoop (recur : Board → ℚ → ℚ → ℚ × Board) (isMax : Bool) :
    List (Nat × Nat) → Board → ℚ → ℚ → ℚ → ℚ × Board
  | [], b, best, _, _ => (best, b)
  | (r, c) :: rest, b, best, alpha, beta =>
    if getCell b r c = none then
      let b1 := setCell b r c (some (if isMax then Mark.O else Mark.X))
      let vb := recur b1 alpha beta
      let b2 := setCell vb.2 r c none
      let best' := if isMax then max best vb.1 else min best vb.1
      let alpha' := if isMax then max alpha best' else alpha
      let beta' := if isMax then beta else min beta best'
      if beta' ≤ alpha' then (best', b2)
      else mmLoop recur isMax rest b2 best' alpha' beta'
    else mmLoop recur isMax rest b best alpha beta

/-- `minimax(depth, is_maximizing, alpha, beta, max_depth)` (lines 2241–2297),
with the mutated global board threaded in and out.  `fuel` bounds the
recursion depth; every caller passes at least the number of empty cells,
which suffices because each recursive call fills one empty cell (the
fuel-exhausted branch below is then unreachable). -/
def minimax (cfg : Config) :
    Nat → Board → Nat → Bool → ℚ → ℚ → Option Nat → ℚ × Board
  | fuel, b, depth, is_maximizing, alpha, beta, given_max_depth =>
    let max_depth := given_max_depth.getD (dynamic_max_depth cfg b)
    let score := evaluate cfg b
    if score ≠ 0 then
      (((if score > 0 then score * (10 - (depth : Int))
         else score * ((depth : Int) - 10) : Int) : ℚ), b)
    else if is_board_full cfg b then (0, b)
    else if depth ≥ max_depth then (heuristic_eval cfg b, b)
    else
      match fuel with
      | 0 => ((if is_maximizing then -999 else 999), b)
      | fuel + 1 =>
        mmLoop
          (fun b1 a bt =>
            minimax cfg fuel b1 (depth + 1) (!is_maximizing) a bt (some max_depth))
          is_maximizing (allCells cfg) b
          (if is_maximizing then -999 else 999) alpha beta

/-- The row-major probe loops shared by `ai_move_hard` (lines 2303–2323) and
`ai_move_medium`'s smart branch (lines 2148–2169): the first empty cell
that, filled with `mark`, completes a winning line for `mark`. -/
def findWinCell (cfg : Config) (b : Board) (mark : Mark) : Option (Nat × Nat) :=
  (allCells cfg).find?
    (fun rc => getCell b rc.1 rc.2 == none &&
      check_win cfg (setCell b rc.1 rc.2 (some mark)) mark)

/-- `move_priority(move)` inside `ai_move_hard` (lines 2336–2344). -/
def move_priority (cfg : Config) (move : Nat × Nat) : Nat :=
  let center := cfg.rows / 2
  if move.1 = center ∧ move.2 = center then 0
  else if (move.1 = 0 ∨ move.1 = cfg.rows - 1) ∧ (move.2 = 0 ∨ move.2 = cfg.cols - 1) then 1
  else 2

/-- Insert a move into a priority-sorted list of later moves, before the
first move of equal or greater priority value, as Python's stable sort
keeps ties in original list order. -/
def insertByPriority (cfg : Config) (m : Nat × Nat) :
    List (Nat × Nat) → List (Nat × Nat)
  | [] => [m]
  | x :: xs =>
    if move_priority cfg m ≤ move_priority cfg x then m :: x :: xs
    else x :: insertByPriority cfg m xs

/-- `moves.sort(key=move_priority)` (line 2346): a stable sort by priority;
its output is uniquely determined (keys ascending, ties in original order),
realised here by stable insertion sort. -/
def sortByPriority (cfg : Config) : List (Nat × Nat) → List (Nat × Nat)
  | [] => []
  | x :: xs => insertByPriority cfg x (sortByPriority cfg xs)

/-- The top-level candidate loop of `ai_move_hard` (lines 2348–2357):
returns `(best_score, best_move, board)`. -/
def hardLoop (cfg : Config) (fuel : Nat) :
    List (Nat × Nat) → Board → ℚ → Option (Nat × Nat) → ℚ → ℚ →
    ℚ × Option (Nat × Nat) × Board
  | [], b, best_score, best_move, _, _ => (best_score, best_move, b)
  | (r, c) :: rest, b, best_score, best_move, alpha, beta =>
    let b1 := setCell b r c (some .O)
    let sb := minimax cfg fuel b1 0 false alpha beta none
    let b2 := setCell sb.2 r c none
    let best' := if sb.1 > best_score then (sb.1, some (r, c)) else (best_score, best_move)
    let alpha' := max alpha best'.1
    if beta ≤ alpha' then (best'.1, best'.2, b2)
    else hardLoop cfg fuel rest b2 best'.1 best'.2 alpha' beta

/-- `ai_move_hard()` (lines 2299–2361): immediate-win scan, then block scan,
then minimax over priority-sorted moves.  In the win branch the probe has
already written `O` before `mark_square` rewrites it, as in the source. -/
def ai_move_hard (cfg : Config) (s : GameState) : GameState :=
  match findWinCell cfg s.board .O with
  | some (r, c) => mark_square { s with board := setCell s.board r c (some .O) } r c .O
  | none =>
    match findWinCell cfg s.board .X with
    | some (r, c) => mark_square s r c .O
    | none =>
      let moves := sortByPriority cfg (empty_cells cfg s.board)
      let fuel := (empty_cells cfg s.board).length
      let res := hardLoop cfg fuel moves s.board (-999) none (-999) 999
      match res.2.1 with
      | some (r, c) => mark_square { s with board := res.2.2 } r c .O
      | none => { s with board := res.2.2 }

/-- `ai_move_easy()` (lines 2132–2138); `random.choice` is modelled by the
oracle `pick`, handed the row-major list of empty cells. -/
def ai_move_easy (cfg : Config) (pick : List (Nat × Nat) → Option (Nat × Nat))
    (s : GameState) : GameState :=
  match pick (empty_cells cfg s.board) with
  | some (r, c) => mark_square s r c .O
  | none => s

/-- `ai_move_medium()` (lines 2140–2172); the draw of `random.random()` is
modelled by the parameter `u`, and `random.choice` by the oracle `pick`. -/
def ai_move_medium (cfg : Config) (u : ℚ)
    (pick : List (Nat × Nat) → Option (Nat × Nat)) (s : GameState) : GameState :=
  if u < 6/10 then
    match findWinCell cfg s.board .O with
    | some (r, c) => mark_square { s with board := setCell s.board r c (some .O) } r c .O
    | none =>
      match findWinCell cfg s.board .X with
      | some (r, c) => mark_square s r c .O
      | none => ai_move_easy cfg pick s
  else ai_move_easy cfg pick s

/-- Score projection of `mmLoop`: the same fold without the board result.
Proved to agree with `mmLoop` in `mmLoop_eq_score` below; used so that
concrete runs of the search can be evaluated by the kernel. -/
def mmLoopScore (recur : Board → ℚ → ℚ → ℚ) (isMax : Bool) :
    List (Nat × Nat) → Board → ℚ → ℚ → ℚ → ℚ
  | [], _, best, _, _ => best
  | (r, c) :: rest, b, best, alpha, beta =>
    if getCell b r c = none then
      let v := recur (setCell b r c (some (if isMax then Mark.O else Mark.X))) alpha beta
      let best1 := if isMax then max best v else min best v
      let alpha1 := if isMax then max alpha best1 else alpha
      let beta1 := if isMax then beta else min beta best1
      if beta1 ≤ alpha1 then best1
      else mmLoopScore recur isMax rest b best1 alpha1 beta1
    else mmLoopScore recur isMax rest b best alpha beta

/-- Score projection of `minimax` (proved to agree in `minimax_eq_score`). -/
def minimaxScore (cfg : Config) :
    Nat → Board → Nat → Bool → ℚ → ℚ → Option Nat → ℚ
  | fuel, b, depth, is_maximizing, alpha, beta, given_max_depth =>
    let max_depth := given_max_depth.getD (dynamic_max_depth cfg b)
    let score := evaluate cfg b
    if score ≠ 0 then
      (((if score > 0 then score * (10 - (depth : Int))
         else score * ((depth : Int) - 10) : Int) : ℚ))
    else if is_board_full cfg b then 0
    else if depth ≥ max_depth then heuristic_eval cfg b
    else
      match fuel with
      | 0 => (if is_maximizing then -999 else 999)
      | fuel + 1 =>
        mmLoopScore
          (fun b1 a bt =>
            minimaxScore cfg fuel b1 (depth + 1) (!is_maximizing) a bt (some max_depth))
          is_maximizing (allCells cfg) b
          (if is_maximizing then -999 else 999) alpha beta

/-- Score-and-move projection of `hardLoop` (proved to agree in
`hardLoop_eq_score`): the board is threaded read-only because every probed
cell is restored. -/
def hardLoopScore (cfg : Config) (fuel : Nat) :
    List (Nat × Nat) → Board → ℚ → Option (Nat × Nat) → ℚ → ℚ →
    ℚ × Option (Nat × Nat)
  | [], _, best_score, best_move, _, _ => (best_score, best_move)
  | (r, c) :: rest, b, best_score, best_move, alpha, beta =>
    let sc := minimaxScore cfg fuel (setCell b r c (some .O)) 0 false alpha beta none
    let best1 := if sc > best_score then (sc, some (r, c)) else (best_score, best_move)
    let alpha1 := max alpha best1.1
    if beta ≤ alpha1 then best1
    else hardLoopScore cfg fuel rest b best1.1 best1.2 alpha1 beta

/-- Replay of a move list through the game loop's click handling
(lines 3730–3751): each move must pass `available_square`, is placed with
`mark_square` for the side to move, and the game must still be undecided
(no win by the mover, board not full) after it, whereupon the turn
toggles as at line 3748.  Returns the reached state, or `none` if the
move list is not a legal in-progress game. -/
def replay (cfg : Config) : List (Nat × Nat) → GameState → Option GameState
  | [], s => some s
  | rc :: rest, s =>
    if available_square cfg s.board rc.1 rc.2 then
      let s1 := mark_square s rc.1 rc.2 s.player
      if check_win cfg s1.board s.player || is_board_full cfg s1.board then none
      else replay cfg rest { s1 with player := if s.player = .X then .O else .X }
    else none

/-- The specification's opponent-strategy game semantics (§8's optimality
property), used to state the minimax-optimality claim: with `X` to move,
`X` has a strategy that completes a winning line against every `O` reply.
`fuel` bounds the number of `X` moves (the number of empty cells suffices). -/
def xForcesWin (cfg : Config) : Nat → Board → Bool
  | 0, _ => false
  | fuel + 1, b =>
    (empty_cells cfg b).any (fun xm =>
      let b1 := setCell b xm.1 xm.2 (some .X)
      check_win cfg b1 .X ||
      (!(is_board_full cfg b1) &&
        (empty_cells cfg b1).all (fun om =>
          let b2 := setCell b1 om.1 om.2 (some .O)
          !(check_win cfg b2 .O) && !(is_board_full cfg b2) &&
            xForcesWin cfg fuel b2)))

/-- Mark-for-mark swap of a cell, for the heuristic antisymmetry claim. -/
def swapCell : Cell → Cell
  | some .O => some .X
  | some .X => some .O
  | none => none

/-- Board with every `O` replaced by `X` and vice versa. -/
def swapBoard (b : Board) : Board :=
  b.map (fun row => row.map swapCell)

/-- The specification's `terminalScore` (§4.3 of the design document):
`+1` on an AI win, `-1` on a human win, `0` on a full drawn board,
`none` while undecided. -/
def terminalScoreSpec (cfg : Config) (b : Board) : Option Int :=
  if check_win cfg b .O then some 1
  else if check_win cfg b .X then some (-1)
  else if is_board_full cfg b then some 0
  else none

/-! ### Concrete fixtures for the game analysed below -/

/-- The default 3×3 configuration (`GAME_SIZE = 3`). -/
def cfg33 : Config := ⟨3, 3, 3⟩

/-- The board after the legal opening X(0,0), O(1,1), X(1,2). -/
def boardQ : Board :=
  [[some .X, none, none], [none, some .O, some .X], [none, none, none]]

/-- The game state at `boardQ` with O (the AI) to move. -/
def stateQ : GameState :=
  ⟨boardQ, [(0, 0, .X), (1, 1, .O), (1, 2, .X)], 3, .O⟩

/-! ### Board cell lemmas -/

lemma list_set_of_getElem? {α : Type _} {l : List α} {n : Nat} {a : α}
    (h : l[n]? = some a) : l.set n a = l := by
  induction l generalizing n with
  | nil => simp at h
  | cons x xs ih =>
    cases n with
    | zero => simp_all
    | succ m => simp_all

/-- Setting the same cell twice keeps only the second write. -/
lemma setCell_setCell (b : Board) (r c : Nat) (v w : Cell) :
    setCell (setCell b r c v) r c w = setCell b r c w := by
  unfold setCell
  by_cases hr : r < b.length
  · have hrow : (b.set r ((b.getD r []).set c v)).getD r [] = (b.getD r []).set c v := by
      rw [List.getD_eq_getElem?_getD, List.getElem?_set_self (by simpa using hr)]
      rfl
    rw [hrow, List.set_set, List.set_set]
  · have hle : b.length ≤ r := Nat.le_of_not_lt hr
    simp [List.set_eq_of_length_le hle]

/-- Clearing a cell that is already empty leaves the board unchanged. -/
lemma setCell_restore {b : Board} {r c : Nat} (h : getCell b r c = none) :
    setCell b r c none = b := by
  unfold setCell
  cases hg : b[r]? with
  | none =>
    have hle : b.length ≤ r := by simpa [List.getElem?_eq_none_iff] using hg
    exact List.set_eq_of_length_le hle
  | some row =>
    have hrow : b.getD r [] = row := by rw [List.getD_eq_getElem?_getD, hg]; rfl
    have h' : row.getD c none = none := by
      unfold getCell at h
      rwa [hrow] at h
    have hcell : row.set c none = row := by
      cases hgc : row[c]? with
      | none => exact List.set_eq_of_length_le (by simpa [List.getElem?_eq_none_iff] using hgc)
      | some v =>
        have hv : v = none := by
          rw [List.getD_eq_getElem?_getD, hgc] at h'
          simpa using h'
        subst hv
        exact list_set_of_getElem? hgc
    rw [hrow, hcell]
    exact list_set_of_getElem? hg

/-- Well-formed board: the row and column counts match the configuration. -/
def WF (cfg : Config) (b : Board) : Prop :=
  b.length = cfg.rows ∧ ∀ row ∈ b, row.length = cfg.cols

lemma getD_set_self {α : Type _} (l : List α) {n : Nat} (a d : α) (h : n < l.length) :
    (l.set n a).getD n d = a := by
  rw [List.getD_eq_getElem?_getD, List.getElem?_set_self (by simpa using h)]
  rfl

lemma getD_set_ne {α : Type _} (l : List α) {m n : Nat} (a d : α) (h : m ≠ n) :
    (l.set m a).getD n d = l.getD n d := by
  rw [List.getD_eq_getElem?_getD, List.getElem?_set_ne h, ← List.getD_eq_getElem?_getD]

lemma getCell_setCell_self {b : Board} {r c : Nat} (hr : r < b.length)
    (hc : c < (b.getD r []).length) (v : Cell) :
    getCell (setCell b r c v) r c = v := by
  unfold getCell setCell
  rw [getD_set_self _ _ _ hr, getD_set_self _ _ _ hc]

lemma getCell_setCell_ne {b : Board} {r c r' c' : Nat} (v : Cell)
    (h : r ≠ r' ∨ c ≠ c') :
    getCell (setCell b r c v) r' c' = getCell b r' c' := by
  unfold getCell setCell
  rcases h with h | h
  · rw [getD_set_ne _ _ _ h]
  · by_cases hr : r = r'
    · subst hr
      by_cases hlt : r < b.length
      · rw [getD_set_self _ _ _ hlt, getD_set_ne _ _ _ h]
      · rw [List.set_eq_of_length_le (Nat.le_of_not_lt hlt)]
    · rw [getD_set_ne _ _ _ hr]

lemma countP_lt_of_flip {α : Type _} {p q : α → Bool} :
    ∀ {l : List α}, (∀ y ∈ l, p y = true → q y = true) →
      ∀ {x}, x ∈ l → q x = true → p x = false → l.countP p < l.countP q := by
  intro l
  induction l with
  | nil => intro _ x hx; simp at hx
  | cons y ys ih =>
    intro hmono x hx hqx hpx
    rw [List.countP_cons, List.countP_cons]
    have hmono' : ∀ z ∈ ys, p z = true → q z = true :=
      fun z hz => hmono z (List.mem_cons_of_mem _ hz)
    rcases List.mem_cons.mp hx with rfl | hxs
    · have hle : ys.countP p ≤ ys.countP q := List.countP_mono_left hmono'
      simp [hpx, hqx]
      omega
    · have hlt : ys.countP p < ys.countP q := ih hmono' hxs hqx hpx
      by_cases hpy : p y = true
      · simp [hpy, hmono y (List.mem_cons_self y ys) hpy]
        omega
      · simp only [hpy]
        cases hqy : q y <;> simp <;> omega

lemma mem_allCells {cfg : Config} {r c : Nat} :
    (r, c) ∈ allCells cfg ↔ r < cfg.rows ∧ c < cfg.cols := by
  simp only [allCells, List.mem_flatMap, List.mem_map, List.mem_range]
  constructor
  · rintro ⟨a, ha, b, hb, heq⟩
    obtain ⟨rfl, rfl⟩ := Prod.mk.injEq .. ▸ And.intro (congrArg Prod.fst heq) (congrArg Prod.snd heq)
    exact ⟨ha, hb⟩
  · rintro ⟨hr, hc⟩
    exact ⟨r, hr, c, hc, rfl⟩

/-! ### The search never leaks board mutations, and agrees with its
score projection -/

lemma mmLoop_eq_score {recur : Board → ℚ → ℚ → ℚ × Board}
    {recurS : Board → ℚ → ℚ → ℚ}
    (h : ∀ b a bt, recur b a bt = (recurS b a bt, b)) (isMax : Bool) :
    ∀ (cells : List (Nat × Nat)) (b : Board) (best alpha beta : ℚ),
      mmLoop recur isMax cells b best alpha beta =
        (mmLoopScore recurS isMax cells b best alpha beta, b) := by
  intro cells
  induction cells with
  | nil => intro b best alpha beta; rfl
  | cons rc rest ih =>
    intro b best alpha beta
    obtain ⟨r, c⟩ := rc
    rw [mmLoop, mmLoopScore]
    by_cases hcell : getCell b r c = none
    · rw [if_pos hcell, if_pos hcell]
      simp only [h, setCell_setCell, setCell_restore hcell]
      split <;> split <;> first | rfl | exact ih _ _ _ _
    · rw [if_neg hcell, if_neg hcell, ih]

/-- `minimax` returns the board exactly as it received it on every path,
and its score agrees with the score projection. -/
lemma minimax_eq_score (cfg : Config) :
    ∀ (fuel : Nat) (b : Board) (depth : Nat) (isMax : Bool) (alpha beta : ℚ)
      (md : Option Nat),
      minimax cfg fuel b depth isMax alpha beta md =
        (minimaxScore cfg fuel b depth isMax alpha beta md, b) := by
  intro fuel
  induction fuel with
  | zero =>
    intro b depth isMax alpha beta md
    rw [minimax, minimaxScore]
    split
    · rfl
    · split
      · rfl
      · split <;> rfl
  | succ n ih =>
    intro b depth isMax alpha beta md
    rw [minimax, minimaxScore]
    split
    · rfl
    · split
      · rfl
      · split
        · rfl
        · exact mmLoop_eq_score
            (fun b1 a bt => ih b1 (depth + 1) (!isMax) a bt
              (some (md.getD (dynamic_max_depth cfg b)))) isMax (allCells cfg) b _ alpha beta

/-- `hardLoop` threads the board through probe/restore pairs and hands it
back unchanged, with the same score and move as the score projection,
provided every candidate cell is empty. -/
lemma hardLoop_eq_score (cfg : Config) (fuel : Nat) :
    ∀ (moves : List (Nat × Nat)) (b : Board) (bs : ℚ) (bm : Option (Nat × Nat))
      (alpha beta : ℚ),
      (∀ rc ∈ moves, getCell b rc.1 rc.2 = none) →
      hardLoop cfg fuel moves b bs bm alpha beta =
        ((hardLoopScore cfg fuel moves b bs bm alpha beta).1,
         (hardLoopScore cfg fuel moves b bs bm alpha beta).2, b) := by
  intro moves
  induction moves with
  | nil => intro b bs bm alpha beta _; rfl
  | cons rc rest ih =>
    intro b bs bm alpha beta hmem
    obtain ⟨r, c⟩ := rc
    have hcell : getCell b r c = none := hmem (r, c) (List.mem_cons_self _ _)
    rw [hardLoop, hardLoopScore]
    simp only [minimax_eq_score, setCell_setCell, setCell_restore hcell]
    split <;> split <;>
      first
      | rfl
      | exact ih b _ _ _ _ (fun z hz => hmem z (List.mem_cons_of_mem _ hz))

lemma mem_insertByPriority {cfg : Config} {x m : Nat × Nat} :
    ∀ {l : List (Nat × Nat)}, x ∈ insertByPriority cfg m l ↔ x = m ∨ x ∈ l := by
  intro l
  induction l with
  | nil => simp [insertByPriority]
  | cons y ys ih =>
    rw [insertByPriority]
    split
    · simp
    · simp only [List.mem_cons, ih]
      tauto

lemma mem_sortByPriority {cfg : Config} {x : Nat × Nat} :
    ∀ {l : List (Nat × Nat)}, x ∈ sortByPriority cfg l ↔ x ∈ l := by
  intro l
  induction l with
  | nil => simp [sortByPriority]
  | cons y ys ih =>
    rw [sortByPriority, mem_insertByPriority, ih]
    simp

lemma getCell_of_mem_empty_cells {cfg : Config} {b : Board} {rc : Nat × Nat}
    (h : rc ∈ empty_cells cfg b) : getCell b rc.1 rc.2 = none := by
  have := (List.mem_filter.mp h).2
  simpa using this

/-- When neither fast path fires, `ai_move_hard` places the move chosen by
the score projection of the search (and the probing loop has restored the
board). -/
lemma ai_move_hard_search (cfg : Config) (s : GameState)
    (h1 : findWinCell cfg s.board .O = none)
    (h2 : findWinCell cfg s.board .X = none) :
    ai_move_hard cfg s =
      match (hardLoopScore cfg (empty_cells cfg s.board).length
          (sortByPriority cfg (empty_cells cfg s.board)) s.board
          (-999) none (-999) 999).2 with
      | some (r, c) => mark_square s r c .O
      | none => s := by
  rw [ai_move_hard, h1, h2]
  have hmem : ∀ rc ∈ sortByPriority cfg (empty_cells cfg s.board),
      getCell s.board rc.1 rc.2 = none :=
    fun rc hrc => getCell_of_mem_empty_cells (mem_sortByPriority.mp hrc)
  dsimp only
  rw [hardLoop_eq_score cfg _ _ _ _ _ _ _ hmem]

lemma WF_row_length {cfg : Config} {b : Board} {r : Nat} (h : WF cfg b)
    (hr : r < cfg.rows) : (b.getD r []).length = cfg.cols := by
  have hrl : r < b.length := by rw [h.1]; exact hr
  rw [List.getD_eq_getElem?_getD, List.getElem?_eq_getElem hrl]
  exact h.2 _ (List.getElem_mem hrl)

lemma empty_cells_length_eq_countP (cfg : Config) (b : Board) :
    (empty_cells cfg b).length =
      (allCells cfg).countP (fun rc => getCell b rc.1 rc.2 == none) := by
  rw [empty_cells, ← List.countP_eq_length_filter]

/-! ### Claim theorems -/

/-- C6: no leaked mutation from the search.  Every invocation of `minimax`
returns with the board cell-for-cell identical to its state at entry, on
every path including alpha-beta pruning cutoffs (no hypotheses: this holds
for all arguments); and the candidate loop of `ai_move_hard` hands the
board back unchanged provided the probed candidate cells are empty, as
they are when it is called on the row-major list of empty cells. -/
theorem search_no_leaked_mutation :
    (∀ (cfg : Config) (fuel : Nat) (b : Board) (depth : Nat) (isMax : Bool)
      (alpha beta : ℚ) (md : Option Nat),
      (minimax cfg fuel b depth isMax alpha beta md).2 = b) ∧
    (∀ (cfg : Config) (fuel : Nat) (moves : List (Nat × Nat)) (b : Board)
      (bs : ℚ) (bm : Option (Nat × Nat)) (alpha beta : ℚ),
      (∀ rc ∈ moves, getCell b rc.1 rc.2 = none) →
      (hardLoop cfg fuel moves b bs bm alpha beta).2.2 = b) := by
  constructor
  · intro cfg fuel b depth isMax alpha beta md
    rw [minimax_eq_score]
  · intro cfg fuel moves b bs bm alpha beta hmem
    rw [hardLoop_eq_score cfg fuel moves b bs bm alpha beta hmem]

/-- Witness for C6 at a concrete input: a 3×3 search probe restores the
board, and so does the hard-AI candidate loop on two empty cells. -/
theorem search_no_leaked_mutation_witness :
    (minimax ⟨3, 3, 3⟩ 2 [[some .X, some .O, some .X],
        [some .X, some .O, some .O], [some .O, some .X, none]] 0 true
        (-999) 999 none).2 =
      [[some .X, some .O, some .X], [some .X, some .O, some .O],
        [some .O, some .X, none]] ∧
    (hardLoop ⟨3, 3, 3⟩ 2 [(2, 2), (0, 1)] [[some .X, none, some .X],
        [some .X, some .O, some .O], [some .O, some .X, none]]
        (-999) none (-999) 999).2.2 =
      [[some .X, none, some .X], [some .X, some .O, some .O],
        [some .O, some .X, none]] :=
  ⟨search_no_leaked_mutation.1 ⟨3, 3, 3⟩ 2 _ 0 true (-999) 999 none,
   search_no_leaked_mutation.2 ⟨3, 3, 3⟩ 2 [(2, 2), (0, 1)] _ (-999) none
     (-999) 999 (by decide)⟩

/-- C9: search termination.  On a full board `minimax` returns the terminal
evaluation — the depth-scaled score when a side has won, else `0` — for
every fuel value, in particular fuel `0`, so no recursive call is needed;
and placing a mark on an empty in-range cell of a well-formed board
strictly decreases the number of empty cells, the measure that makes the
recursion terminate. -/
theorem minimax_full_board_terminal :
    (∀ (cfg : Config) (fuel : Nat) (b : Board) (depth : Nat) (isMax : Bool)
      (alpha beta : ℚ) (md : Option Nat),
      is_board_full cfg b = true →
      minimax cfg fuel b depth isMax alpha beta md =
        ((if evaluate cfg b ≠ 0 then
            (((if evaluate cfg b > 0 then evaluate cfg b * (10 - (depth : Int))
               else evaluate cfg b * ((depth : Int) - 10)) : Int) : ℚ)
          else 0), b)) ∧
    (∀ (cfg : Config) (b : Board) (r c : Nat) (m : Mark),
      WF cfg b → r < cfg.rows → c < cfg.cols → getCell b r c = none →
      (empty_cells cfg (setCell b r c (some m))).length <
        (empty_cells cfg b).length) := by
  constructor
  · intro cfg fuel b depth isMax alpha beta md hfull
    rw [minimax.eq_def]
    dsimp only
    by_cases hs : evaluate cfg b ≠ 0
    · rw [if_pos hs, if_pos hs]
    · rw [if_neg hs, if_neg hs, if_pos hfull]
  · intro cfg b r c m hwf hr hc hcell
    rw [empty_cells_length_eq_countP, empty_cells_length_eq_countP]
    have hrl : r < b.length := by rw [hwf.1]; exact hr
    have hcl : c < (b.getD r []).length := by rw [WF_row_length hwf hr]; exact hc
    have hself : getCell (setCell b r c (some m)) r c = some m :=
      getCell_setCell_self hrl hcl (some m)
    apply countP_lt_of_flip (x := (r, c))
    · intro y hy hp
      by_cases hne : r = y.1 ∧ c = y.2
      · exfalso
        obtain ⟨h1, h2⟩ := hne
        rw [← h1, ← h2, hself] at hp
        simp at hp
      · rw [getCell_setCell_ne (some m) (by tauto)] at hp
        exact hp
    · exact mem_allCells.mpr ⟨hr, hc⟩
    · show (getCell b r c == none) = true
      rw [hcell]; rfl
    · show (getCell (setCell b r c (some m)) r c == none) = false
      rw [hself]; rfl

/-- Witness for C9: the classic drawn 3×3 board is full, `minimax` returns
`0` on it even with fuel `0`, and filling the centre of an empty 3×3 board
drops the empty-cell count. -/
theorem minimax_full_board_terminal_witness :
    minimax ⟨3, 3, 3⟩ 0 [[some .X, some .O, some .X],
        [some .X, some .O, some .O], [some .O, some .X, some .X]] 4 true
        (-999) 999 none =
      ((if evaluate ⟨3, 3, 3⟩ [[some .X, some .O, some .X],
          [some .X, some .O, some .O], [some .O, some .X, some .X]] ≠ 0 then
          (((if evaluate ⟨3, 3, 3⟩ [[some .X, some .O, some .X],
               [some .X, some .O, some .O], [some .O, some .X, some .X]] > 0 then
               evaluate ⟨3, 3, 3⟩ [[some .X, some .O, some .X],
                 [some .X, some .O, some .O], [some .O, some .X, some .X]] * (10 - (4 : Int))
             else
               evaluate ⟨3, 3, 3⟩ [[some .X, some .O, some .X],
                 [some .X, some .O, some .O], [some .O, some .X, some .X]] * ((4 : Int) - 10)) : Int) : ℚ)
        else 0), [[some .X, some .O, some .X], [some .X, some .O, some .O],
          [some .O, some .X, some .X]]) ∧
    (empty_cells ⟨3, 3, 3⟩ (setCell [[none, none, none], [none, none, none],
        [none, none, none]] 1 1 (some .O))).length <
      (empty_cells ⟨3, 3, 3⟩ [[none, none, none], [none, none, none],
        [none, none, none]]).length := by
  constructor
  · exact minimax_full_board_terminal.1 ⟨3, 3, 3⟩ 0 _ 4 true (-999) 999 none (by decide)
  · exact minimax_full_board_terminal.2 ⟨3, 3, 3⟩ _ 1 1 .O
      ⟨by decide, by decide⟩ (by decide) (by decide) (by decide)

/-- C8: terminal scoring semantics.  The pair (`evaluate`, `is_board_full`)
implements the specification's `terminalScore`: `+1` on an AI (`O`) win,
`-1` on a human (`X`) win (when `O` has not won — `evaluate` tests `O`
first), `0` with the board full and no winner, and the undecided case
(`evaluate` zero, board not full) is exactly where `terminalScoreSpec`
returns `none`, distinguishing it from the draw. -/
theorem evaluate_terminal_semantics :
    ∀ (cfg : Config) (b : Board),
      terminalScoreSpec cfg b =
        (if evaluate cfg b ≠ 0 then some (evaluate cfg b)
         else if is_board_full cfg b then some 0 else none) ∧
      (check_win cfg b .O = true → evaluate cfg b = 1) ∧
      (check_win cfg b .O = false → check_win cfg b .X = true →
        evaluate cfg b = -1) ∧
      (check_win cfg b .O = false → check_win cfg b .X = false →
        evaluate cfg b = 0) := by
  intro cfg b
  refine ⟨?_, ?_, ?_, ?_⟩
  · unfold terminalScoreSpec evaluate
    by_cases h1 : check_win cfg b .O = true
    · simp [h1]
    · by_cases h2 : check_win cfg b .X = true
      · simp [h1, h2]
      · by_cases h3 : is_board_full cfg b = true <;> simp [h1, h2, h3]
  · intro h1; unfold evaluate; simp [h1]
  · intro h1 h2; unfold evaluate; simp [h1, h2]
  · intro h1 h2; unfold evaluate; simp [h1, h2]

/-- Witness for C8 at concrete boards: an `O` win scores `+1`, an `X` win
scores `-1`, and the classic drawn 3×3 pattern scores `0`. -/
theorem evaluate_terminal_semantics_witness :
    evaluate ⟨3, 3, 3⟩ [[some .O, some .O, some .O],
      [some .X, some .X, none], [none, none, none]] = 1 ∧
    evaluate ⟨3, 3, 3⟩ [[some .X, some .X, some .X],
      [some .O, some .O, none], [none, none, none]] = -1 ∧
    evaluate ⟨3, 3, 3⟩ [[some .X, some .O, some .X],
      [some .X, some .O, some .O], [some .O, some .X, some .X]] = 0 :=
  ⟨(evaluate_terminal_semantics ⟨3, 3, 3⟩ _).2.1 (by decide),
   (evaluate_terminal_semantics ⟨3, 3, 3⟩ _).2.2.1 (by decide) (by decide),
   (evaluate_terminal_semantics ⟨3, 3, 3⟩ _).2.2.2 (by decide) (by decide)⟩

/-- C5 counterexample: `mark_square` itself performs no validity check.
On this concrete state, cell (0,0) is occupied by `X`, yet
`mark_square(0, 0, "O")` overwrites it with `O`, appends to the history
and bumps the counter, instead of failing with the state unchanged. -/
theorem mark_square_overwrites_occupied :
    getCell (GameState.board ⟨[[some .X, none, none], [none, none, none],
        [none, none, none]], [(0, 0, .X)], 1, .O⟩) 0 0 = some .X ∧
    mark_square ⟨[[some .X, none, none], [none, none, none],
        [none, none, none]], [(0, 0, .X)], 1, .O⟩ 0 0 .O ≠
      ⟨[[some .X, none, none], [none, none, none], [none, none, none]],
        [(0, 0, .X)], 1, .O⟩ ∧
    getCell (mark_square ⟨[[some .X, none, none], [none, none, none],
        [none, none, none]], [(0, 0, .X)], 1, .O⟩ 0 0 .O).board 0 0 =
      some .O := by
  refine ⟨by decide, ?_, by decide⟩
  intro h
  exact absurd (congrArg GameState.move_count h) (by decide)

/-- C5 amended: the rejection of invalid moves lives at `mark_square`'s
call sites, which guard it with `available_square`.  The guarded placement
refuses (leaving board, history and count unchanged, reported as `false`
rather than a raised error) exactly when the coordinates are out of range
or the cell is occupied, so a guarded place never overwrites an occupied
cell; `mark_square` itself checks nothing. -/
theorem guarded_place_rejects_invalid :
    ∀ (cfg : Config) (s : GameState) (row col : Nat) (mark : Mark),
      (available_square cfg s.board row col = true ↔
        row < cfg.rows ∧ col < cfg.cols ∧ getCell s.board row col = none) ∧
      (¬(row < cfg.rows ∧ col < cfg.cols ∧ getCell s.board row col = none) →
        guarded_place cfg s row col mark = (false, s)) ∧
      (∀ m : Mark, getCell s.board row col = some m →
        (guarded_place cfg s row col mark).2 = s) := by
  intro cfg s row col mark
  have hchar : available_square cfg s.board row col = true ↔
      row < cfg.rows ∧ col < cfg.cols ∧ getCell s.board row col = none := by
    unfold available_square
    rw [Bool.and_eq_true, Bool.and_eq_true]
    simp [and_assoc]
  refine ⟨hchar, ?_, ?_⟩
  · intro hinv
    unfold guarded_place
    rw [if_neg (fun h => hinv (hchar.mp h))]
  · intro m hm
    unfold guarded_place
    rw [if_neg (fun h => by rw [(hchar.mp h).2.2] at hm; exact Option.noConfusion hm)]

/-- Witness for C5's amended theorem: the guard refuses an occupied cell
and an out-of-range coordinate, leaving the state unchanged. -/
theorem guarded_place_rejects_invalid_witness :
    guarded_place ⟨3, 3, 3⟩ ⟨[[some .X, none, none], [none, none, none],
        [none, none, none]], [(0, 0, .X)], 1, .O⟩ 0 0 .O =
      (false, ⟨[[some .X, none, none], [none, none, none],
        [none, none, none]], [(0, 0, .X)], 1, .O⟩) ∧
    guarded_place ⟨3, 3, 3⟩ ⟨[[some .X, none, none], [none, none, none],
        [none, none, none]], [(0, 0, .X)], 1, .O⟩ 0 7 .O =
      (false, ⟨[[some .X, none, none], [none, none, none],
        [none, none, none]], [(0, 0, .X)], 1, .O⟩) :=
  ⟨(guarded_place_rejects_invalid ⟨3, 3, 3⟩ _ 0 0 .O).2.1 (by decide),
   (guarded_place_rejects_invalid ⟨3, 3, 3⟩ _ 0 7 .O).2.1 (by decide)⟩

lemma undoPops_one (s : GameState) (h : List (Nat × Nat × Mark)) (r c : Nat)
    (m : Mark) (hh : s.move_history = h ++ [(r, c, m)]) :
    undoPops 1 s = ⟨setCell s.board r c none, h, s.move_count - 1, m⟩ := by
  show undoPops (0 + 1) s = _
  rw [undoPops, hh, List.getLast?_concat]
  dsimp only
  rw [undoPops, List.dropLast_concat]

/-- C10: behaviour of `undo_last_move` at the public interface.  With an
empty history it reports `False` and changes nothing.  Otherwise it pops
one move in player-vs-player mode (or when only one move exists in an AI
mode), and two moves in an AI mode with at least two recorded moves: each
popped move's cell is cleared, the counter drops once per pop, and the
side to move becomes the mark of the last move popped. -/
theorem undo_last_move_behaviour :
    ∀ (mode : GameMode) (s : GameState),
      (s.move_history = [] → undo_last_move mode s = (false, s)) ∧
      (∀ (h : List (Nat × Nat × Mark)) (r c : Nat) (m : Mark),
        s.move_history = h ++ [(r, c, m)] →
        ((mode.isAi = false ∨ h = []) →
          undo_last_move mode s =
            (true, ⟨setCell s.board r c none, h, s.move_count - 1, m⟩)) ∧
        (mode.isAi = true →
          ∀ (h2 : List (Nat × Nat × Mark)) (r2 c2 : Nat) (m2 : Mark),
            h = h2 ++ [(r2, c2, m2)] →
            undo_last_move mode s =
              (true, ⟨setCell (setCell s.board r c none) r2 c2 none, h2,
                s.move_count - 2, m2⟩))) := by
  intro mode s
  constructor
  · intro hemp
    unfold undo_last_move
    rw [if_pos hemp]
  · intro h r c m hh
    have hne : ¬s.move_history = [] := by rw [hh]; simp
    constructor
    · intro hcase
      have hk : (if mode.isAi = true then min 2 s.move_history.length else 1) = 1 := by
        rcases hcase with hpvp | hnil
        · rw [hpvp]; rfl
        · subst hnil
          rw [hh]
          cases mode.isAi <;> simp
      unfold undo_last_move
      rw [if_neg hne]
      dsimp only
      rw [hk, undoPops_one s h r c m hh]
    · intro hai h2 r2 c2 m2 hh2
      have hk : (if mode.isAi = true then min 2 s.move_history.length else 1) = 2 := by
        rw [hai, hh, hh2]
        simp
      unfold undo_last_move
      rw [if_neg hne]
      dsimp only
      rw [hk]
      have hstep : undoPops 2 s =
          undoPops 1 ⟨setCell s.board r c none, h, s.move_count - 1, m⟩ := by
        show undoPops (1 + 1) s = _
        rw [undoPops, hh, List.getLast?_concat]
        dsimp only
        rw [List.dropLast_concat]
      rw [hstep, undoPops_one _ h2 r2 c2 m2 hh2]
      have : s.move_count - 1 - 1 = s.move_count - 2 := by omega
      rw [this]

/-- Witness for C10: a PVP single-move undo, an AI-mode double undo, and
the empty-history refusal, on concrete states. -/
theorem undo_last_move_behaviour_witness :
    undo_last_move .PVP ⟨[[some .X, none, none], [none, none, none],
        [none, none, none]], [(0, 0, .X)], 1, .O⟩ =
      (true, ⟨setCell [[some .X, none, none], [none, none, none],
        [none, none, none]] 0 0 none, [], 0, .X⟩) ∧
    undo_last_move .AI_HARD ⟨[[some .X, some .O, none], [none, none, none],
        [none, none, none]], [(0, 0, .X), (0, 1, .O)], 2, .X⟩ =
      (true, ⟨setCell (setCell [[some .X, some .O, none], [none, none, none],
        [none, none, none]] 0 1 none) 0 0 none, [], 0, .X⟩) ∧
    undo_last_move .AI_HARD ⟨[[none, none, none], [none, none, none],
        [none, none, none]], [], 0, .X⟩ =
      (false, ⟨[[none, none, none], [none, none, none],
        [none, none, none]], [], 0, .X⟩) := by
  refine ⟨?_, ?_, ?_⟩
  · have := ((undo_last_move_behaviour .PVP ⟨[[some .X, none, none],
      [none, none, none], [none, none, none]], [(0, 0, .X)], 1, .O⟩).2
      [] 0 0 .X (by rfl)).1 (Or.inl (by rfl))
    simpa using this
  · have := ((undo_last_move_behaviour .AI_HARD ⟨[[some .X, some .O, none],
      [none, none, none], [none, none, none]], [(0, 0, .X), (0, 1, .O)], 2,
      .X⟩).2 [(0, 0, .X)] 0 1 .O (by rfl)).2 (by rfl) [] 0 0 .X (by rfl)
    simpa using this
  · exact (undo_last_move_behaviour .AI_HARD _).1 (by rfl)

lemma swapCell_injective : Function.Injective swapCell := by
  intro a b hab
  rcases a with _ | xa <;> rcases b with _ | xb
  · rfl
  · cases xb <;> simp [swapCell] at hab
  · cases xa <;> simp [swapCell] at hab
  · cases xa <;> cases xb <;> first | rfl | simp [swapCell] at hab

lemma count_map_swap_O (cells : List Cell) :
    (cells.map swapCell).count (some .O) = cells.count (some .X) := by
  induction cells with
  | nil => rfl
  | cons a l ih =>
    rw [List.map_cons, List.count_cons, List.count_cons, ih]
    rcases a with _ | xa
    · rfl
    · cases xa <;> rfl

lemma count_map_swap_X (cells : List Cell) :
    (cells.map swapCell).count (some .X) = cells.count (some .O) := by
  induction cells with
  | nil => rfl
  | cons a l ih =>
    rw [List.map_cons, List.count_cons, List.count_cons, ih]
    rcases a with _ | xa
    · rfl
    · cases xa <;> rfl

lemma count_map_swap_none (cells : List Cell) :
    (cells.map swapCell).count none = cells.count none := by
  induction cells with
  | nil => rfl
  | cons a l ih =>
    rw [List.map_cons, List.count_cons, List.count_cons, ih]
    rcases a with _ | xa
    · rfl
    · cases xa <;> rfl

lemma eval_line_swap (cfg : Config) (cells : List Cell) :
    eval_line cfg (cells.map swapCell) = - eval_line cfg cells := by
  unfold eval_line
  simp only [count_map_swap_O cells, count_map_swap_X cells,
    count_map_swap_none cells]
  generalize cells.count (some Mark.O) = oc
  generalize cells.count (some Mark.X) = xc
  generalize cells.count none = e
  split_ifs <;> first | (exfalso; omega) | ring1

lemma getD_map_swap (b : Board) (r : Nat) :
    (b.map (fun row => row.map swapCell)).getD r [] = (b.getD r []).map swapCell := by
  rw [List.getD_eq_getElem?_getD, List.getElem?_map, List.getD_eq_getElem?_getD]
  cases b[r]? <;> rfl

lemma getD_row_map_swap (row : List Cell) (c : Nat) :
    (row.map swapCell).getD c none = swapCell (row.getD c none) := by
  rw [List.getD_eq_getElem?_getD, List.getElem?_map, List.getD_eq_getElem?_getD]
  cases row[c]? <;> rfl

lemma getCell_swapBoard (b : Board) (r c : Nat) :
    getCell (swapBoard b) r c = swapCell (getCell b r c) := by
  unfold getCell swapBoard
  rw [getD_map_swap, getD_row_map_swap]

lemma windowCells_swap (b : Board) (w : List (Nat × Nat)) :
    windowCells (swapBoard b) w = (windowCells b w).map swapCell := by
  unfold windowCells
  rw [List.map_map]
  exact List.map_congr_left (fun rc _ => getCell_swapBoard b rc.1 rc.2)

lemma sum_map_neg {α : Type _} (l : List α) (f : α → ℚ) :
    (l.map (fun x => - f x)).sum = - (l.map f).sum := by
  induction l with
  | nil => simp
  | cons a l ih =>
    rw [List.map_cons, List.map_cons, List.sum_cons, List.sum_cons, ih, neg_add]

/-- C7: heuristic antisymmetry.  Swapping every `O` for `X` and vice versa
(empty cells unchanged) negates `heuristic_eval`: each scanned line's
mark counts trade places, so each line contribution flips sign, and the
sum over all lines flips sign. -/
theorem heuristic_eval_antisymm :
    ∀ (cfg : Config) (b : Board),
      heuristic_eval cfg (swapBoard b) = - heuristic_eval cfg b := by
  intro cfg b
  unfold heuristic_eval
  rw [← sum_map_neg]
  congr 1
  apply List.map_congr_left
  intro w _
  rw [windowCells_swap, eval_line_swap]

lemma windowAll_range_map {b : Board} {mark : Mark} {L : Nat}
    {h : Nat → Nat × Nat} :
    windowAll b mark ((List.range L).map h) = true ↔
      ∀ i < L, getCell b (h i).1 (h i).2 = some mark := by
  unfold windowAll
  rw [List.all_eq_true]
  constructor
  · intro hall i hi
    have := hall (h i) (List.mem_map.mpr ⟨i, List.mem_range.mpr hi, rfl⟩)
    simpa using this
  · intro hcells x hx
    rw [List.mem_map] at hx
    obtain ⟨i, hi, rfl⟩ := hx
    rw [List.mem_range] at hi
    simpa using hcells i hi

lemma exists_horiz_win {cfg : Config} {b : Board} {mark : Mark}
    (hwc : cfg.winLen ≤ cfg.cols) :
    (∃ w ∈ horizWindows cfg, windowAll b mark w = true) ↔
      ∃ r sc, r < cfg.rows ∧ sc + cfg.winLen ≤ cfg.cols ∧
        ∀ i < cfg.winLen, getCell b r (sc + i) = some mark := by
  unfold horizWindows
  constructor
  · rintro ⟨w, hw, hall⟩
    rw [List.mem_flatMap] at hw
    obtain ⟨r, hr, hw⟩ := hw
    rw [List.mem_map] at hw
    obtain ⟨sc, hsc, rfl⟩ := hw
    rw [List.mem_range] at hr
    rw [List.mem_range] at hsc
    exact ⟨r, sc, hr, by omega, fun i hi =>
      windowAll_range_map.mp hall i hi⟩
  · rintro ⟨r, sc, hr, hsc, hcells⟩
    refine ⟨(List.range cfg.winLen).map (fun i => (r, sc + i)), ?_, ?_⟩
    · rw [List.mem_flatMap]
      exact ⟨r, List.mem_range.mpr hr,
        List.mem_map.mpr ⟨sc, List.mem_range.mpr (by omega), rfl⟩⟩
    · exact windowAll_range_map.mpr hcells

lemma exists_vert_win {cfg : Config} {b : Board} {mark : Mark}
    (hwr : cfg.winLen ≤ cfg.rows) :
    (∃ w ∈ vertWindows cfg, windowAll b mark w = true) ↔
      ∃ sr c, sr + cfg.winLen ≤ cfg.rows ∧ c < cfg.cols ∧
        ∀ i < cfg.winLen, getCell b (sr + i) c = some mark := by
  unfold vertWindows
  constructor
  · rintro ⟨w, hw, hall⟩
    rw [List.mem_flatMap] at hw
    obtain ⟨c, hc, hw⟩ := hw
    rw [List.mem_map] at hw
    obtain ⟨sr, hsr, rfl⟩ := hw
    rw [List.mem_range] at hc
    rw [List.mem_range] at hsr
    exact ⟨sr, c, by omega, hc, fun i hi =>
      windowAll_range_map.mp hall i hi⟩
  · rintro ⟨sr, c, hsr, hc, hcells⟩
    refine ⟨(List.range cfg.winLen).map (fun i => (sr + i, c)), ?_, ?_⟩
    · rw [List.mem_flatMap]
      exact ⟨c, List.mem_range.mpr hc,
        List.mem_map.mpr ⟨sr, List.mem_range.mpr (by omega), rfl⟩⟩
    · exact windowAll_range_map.mpr hcells

lemma exists_diag_win {cfg : Config} {b : Board} {mark : Mark}
    (hwr : cfg.winLen ≤ cfg.rows) (hwc : cfg.winLen ≤ cfg.cols) :
    (∃ w ∈ diagWindows cfg, windowAll b mark w = true) ↔
      ∃ sr sc, sr + cfg.winLen ≤ cfg.rows ∧ sc + cfg.winLen ≤ cfg.cols ∧
        ∀ i < cfg.winLen, getCell b (sr + i) (sc + i) = some mark := by
  unfold diagWindows
  constructor
  · rintro ⟨w, hw, hall⟩
    rw [List.mem_flatMap] at hw
    obtain ⟨sr, hsr, hw⟩ := hw
    rw [List.mem_map] at hw
    obtain ⟨sc, hsc, rfl⟩ := hw
    rw [List.mem_range] at hsr
    rw [List.mem_range] at hsc
    exact ⟨sr, sc, by omega, by omega, fun i hi =>
      windowAll_range_map.mp hall i hi⟩
  · rintro ⟨sr, sc, hsr, hsc, hcells⟩
    refine ⟨(List.range cfg.winLen).map (fun i => (sr + i, sc + i)), ?_, ?_⟩
    · rw [List.mem_flatMap]
      exact ⟨sr, List.mem_range.mpr (by omega),
        List.mem_map.mpr ⟨sc, List.mem_range.mpr (by omega), rfl⟩⟩
    · exact windowAll_range_map.mpr hcells

lemma exists_antidiag_win {cfg : Config} {b : Board} {mark : Mark}
    (hw1 : 1 ≤ cfg.winLen) (hwr : cfg.winLen ≤ cfg.rows)
    (hwc : cfg.winLen ≤ cfg.cols) :
    (∃ w ∈ antidiagWindows cfg, windowAll b mark w = true) ↔
      ∃ sr sc, sr + cfg.winLen ≤ cfg.rows ∧ cfg.winLen ≤ sc + 1 ∧ sc < cfg.cols ∧
        ∀ i < cfg.winLen, getCell b (sr + i) (sc - i) = some mark := by
  unfold antidiagWindows
  constructor
  · rintro ⟨w, hw, hall⟩
    rw [List.mem_flatMap] at hw
    obtain ⟨sr, hsr, hw⟩ := hw
    rw [List.map_map, List.mem_map] at hw
    obtain ⟨j, hj, rfl⟩ := hw
    rw [List.mem_range] at hsr
    rw [List.mem_range] at hj
    exact ⟨sr, cfg.winLen - 1 + j, by omega, by omega, by omega,
      fun i hi => windowAll_range_map.mp hall i hi⟩
  · rintro ⟨sr, sc, hsr, hsc1, hsc2, hcells⟩
    refine ⟨(List.range cfg.winLen).map (fun i => (sr + i, sc - i)), ?_, ?_⟩
    · rw [List.mem_flatMap]
      refine ⟨sr, List.mem_range.mpr (by omega), ?_⟩
      rw [List.map_map, List.mem_map]
      refine ⟨sc - (cfg.winLen - 1), List.mem_range.mpr (by omega), ?_⟩
      have hsc : cfg.winLen - 1 + (sc - (cfg.winLen - 1)) = sc := by omega
      simp only [Function.comp_apply]
      rw [hsc]
    · exact windowAll_range_map.mpr hcells

lemma check_win_iff_exists_window {cfg : Config} {b : Board} {mark : Mark} :
    check_win cfg b mark = true ↔
      ∃ w ∈ allWindows cfg, windowAll b mark w = true := by
  unfold check_win get_winning_line
  rw [List.find?_isSome]

lemma exists_window_split {cfg : Config} {P : List (Nat × Nat) → Prop} :
    (∃ w ∈ allWindows cfg, P w) ↔
      (∃ w ∈ horizWindows cfg, P w) ∨ (∃ w ∈ vertWindows cfg, P w) ∨
      (∃ w ∈ diagWindows cfg, P w) ∨ (∃ w ∈ antidiagWindows cfg, P w) := by
  unfold allWindows
  simp only [List.mem_append, List.append_assoc]
  constructor
  · rintro ⟨w, hw, hp⟩
    rcases hw with h | h | h | h
    · exact Or.inl ⟨w, h, hp⟩
    · exact Or.inr (Or.inl ⟨w, h, hp⟩)
    · exact Or.inr (Or.inr (Or.inl ⟨w, h, hp⟩))
    · exact Or.inr (Or.inr (Or.inr ⟨w, h, hp⟩))
  · rintro (⟨w, h, hp⟩ | ⟨w, h, hp⟩ | ⟨w, h, hp⟩ | ⟨w, h, hp⟩)
    · exact ⟨w, Or.inl h, hp⟩
    · exact ⟨w, Or.inr (Or.inl h), hp⟩
    · exact ⟨w, Or.inr (Or.inr (Or.inl h)), hp⟩
    · exact ⟨w, Or.inr (Or.inr (Or.inr h)), hp⟩

/-- C4: win detection is correct and reports lines in the scan order.
Under `1 ≤ WIN_LEN ≤ BOARD_ROWS, BOARD_COLS`:
`check_win` holds iff some sliding horizontal, vertical, ↘, or ↙ window of
`WIN_LEN` contiguous cells is entirely the given mark; when
`get_winning_line` returns a window it is a fully-marked window and every
window strictly earlier in the scan order (all horizontal windows row by
row, then vertical column by column, then ↘, then ↙ — the order of
`allWindows`) is not fully marked; and it returns `None` exactly when no
winning window exists. -/
theorem win_detection_correct :
    ∀ (cfg : Config) (b : Board) (mark : Mark),
      1 ≤ cfg.winLen → cfg.winLen ≤ cfg.rows → cfg.winLen ≤ cfg.cols →
      (check_win cfg b mark = true ↔
        (∃ r sc, r < cfg.rows ∧ sc + cfg.winLen ≤ cfg.cols ∧
          ∀ i < cfg.winLen, getCell b r (sc + i) = some mark) ∨
        (∃ sr c, sr + cfg.winLen ≤ cfg.rows ∧ c < cfg.cols ∧
          ∀ i < cfg.winLen, getCell b (sr + i) c = some mark) ∨
        (∃ sr sc, sr + cfg.winLen ≤ cfg.rows ∧ sc + cfg.winLen ≤ cfg.cols ∧
          ∀ i < cfg.winLen, getCell b (sr + i) (sc + i) = some mark) ∨
        (∃ sr sc, sr + cfg.winLen ≤ cfg.rows ∧ cfg.winLen ≤ sc + 1 ∧
          sc < cfg.cols ∧
          ∀ i < cfg.winLen, getCell b (sr + i) (sc - i) = some mark)) ∧
      (∀ w, get_winning_line cfg b mark = some w →
        windowAll b mark w = true ∧
        ∃ pre post, allWindows cfg = pre ++ w :: post ∧
          ∀ w2 ∈ pre, windowAll b mark w2 = false) ∧
      (get_winning_line cfg b mark = none ↔ check_win cfg b mark = false) := by
  intro cfg b mark hw1 hwr hwc
  refine ⟨?_, ?_, ?_⟩
  · rw [check_win_iff_exists_window, exists_window_split,
      exists_horiz_win hwc, exists_vert_win hwr, exists_diag_win hwr hwc,
      exists_antidiag_win hw1 hwr hwc]
  · intro w hw
    unfold get_winning_line at hw
    rw [List.find?_eq_some] at hw
    obtain ⟨hp, pre, post, heq, hpre⟩ := hw
    refine ⟨hp, pre, post, heq, ?_⟩
    intro w2 hw2
    have := hpre w2 hw2
    simpa using this
  · unfold check_win
    cases hg : get_winning_line cfg b mark <;> simp [hg]

/-- Witness for C4 on the concrete 3×3 board `X X X / O O _ / _ _ _`:
`X` has a (horizontal) winning window and `get_winning_line` reports the
top row, the first window in scan order. -/
theorem win_detection_correct_witness :
    (check_win ⟨3, 3, 3⟩ [[some .X, some .X, some .X],
        [some .O, some .O, none], [none, none, none]] .X = true ↔
      (∃ r sc, r < 3 ∧ sc + 3 ≤ 3 ∧
        ∀ i < 3, getCell [[some .X, some .X, some .X],
          [some .O, some .O, none], [none, none, none]] r (sc + i) =
            some .X) ∨
      (∃ sr c, sr + 3 ≤ 3 ∧ c < 3 ∧
        ∀ i < 3, getCell [[some .X, some .X, some .X],
          [some .O, some .O, none], [none, none, none]] (sr + i) c =
            some .X) ∨
      (∃ sr sc, sr + 3 ≤ 3 ∧ sc + 3 ≤ 3 ∧
        ∀ i < 3, getCell [[some .X, some .X, some .X],
          [some .O, some .O, none], [none, none, none]] (sr + i) (sc + i) =
            some .X) ∨
      (∃ sr sc, sr + 3 ≤ 3 ∧ 3 ≤ sc + 1 ∧ sc < 3 ∧
        ∀ i < 3, getCell [[some .X, some .X, some .X],
          [some .O, some .O, none], [none, none, none]] (sr + i) (sc - i) =
            some .X)) ∧
    (∀ w, get_winning_line ⟨3, 3, 3⟩ [[some .X, some .X, some .X],
        [some .O, some .O, none], [none, none, none]] .X = some w →
      windowAll [[some .X, some .X, some .X], [some .O, some .O, none],
        [none, none, none]] .X w = true ∧
      ∃ pre post, allWindows ⟨3, 3, 3⟩ = pre ++ w :: post ∧
        ∀ w2 ∈ pre, windowAll [[some .X, some .X, some .X],
          [some .O, some .O, none], [none, none, none]] .X w2 = false) ∧
    (get_winning_line ⟨3, 3, 3⟩ [[some .X, some .X, some .X],
        [some .O, some .O, none], [none, none, none]] .X = none ↔
      check_win ⟨3, 3, 3⟩ [[some .X, some .X, some .X],
        [some .O, some .O, none], [none, none, none]] .X = false) :=
  win_detection_correct ⟨3, 3, 3⟩ _ .X (by decide) (by decide) (by decide)

lemma findWinCell_props {cfg : Config} {b : Board} {mark : Mark} {r c : Nat}
    (h : findWinCell cfg b mark = some (r, c)) :
    r < cfg.rows ∧ c < cfg.cols ∧ getCell b r c = none ∧
      check_win cfg (setCell b r c (some mark)) mark = true := by
  have hmem : (r, c) ∈ allCells cfg := List.mem_of_find?_eq_some h
  have hp := List.find?_some h
  rw [Bool.and_eq_true] at hp
  obtain ⟨hp1, hp2⟩ := hp
  exact ⟨(mem_allCells.mp hmem).1, (mem_allCells.mp hmem).2,
    by simpa using hp1, hp2⟩

lemma findWinCell_eq_none_iff {cfg : Config} {b : Board} {mark : Mark} :
    findWinCell cfg b mark = none ↔
      ¬∃ r c, r < cfg.rows ∧ c < cfg.cols ∧ getCell b r c = none ∧
        check_win cfg (setCell b r c (some mark)) mark = true := by
  unfold findWinCell
  rw [List.find?_eq_none]
  constructor
  · rintro hall ⟨r, c, hr, hc, hcell, hwin⟩
    have := hall (r, c) (mem_allCells.mpr ⟨hr, hc⟩)
    rw [Bool.and_eq_true] at this
    push_neg at this
    exact absurd hwin (this (by simpa using hcell))
  · intro hnone rc hrc
    rw [Bool.and_eq_true]
    rintro ⟨hp1, hp2⟩
    exact hnone ⟨rc.1, rc.2, (mem_allCells.mp hrc).1, (mem_allCells.mp hrc).2,
      by simpa using hp1, hp2⟩

lemma findWinCell_isSome_of_exists {cfg : Config} {b : Board} {mark : Mark}
    (h : ∃ r c, r < cfg.rows ∧ c < cfg.cols ∧ getCell b r c = none ∧
      check_win cfg (setCell b r c (some mark)) mark = true) :
    ∃ r c, findWinCell cfg b mark = some (r, c) := by
  cases hf : findWinCell cfg b mark with
  | none => exact absurd h (findWinCell_eq_none_iff.mp hf)
  | some rc => obtain ⟨r, c⟩ := rc; exact ⟨r, c, rfl⟩

lemma mark_square_double_set (s : GameState) (r c : Nat) (m : Mark) :
    mark_square { s with board := setCell s.board r c (some m) } r c m =
      mark_square s r c m := by
  unfold mark_square
  rw [setCell_setCell]

/-- C3: fast-path win-then-block.  If some empty in-range cell completes a
winning line for `O`, then `ai_move_hard` — and `ai_move_medium` whenever
its random draw is below 0.6 — places `O` on such a cell (the first in
row-major order), purely through the probe loops, the minimax branch of
the code being behind these guards; otherwise, if some empty cell would
complete a winning line for `X`, both place `O` on that blocking cell. -/
theorem fast_path_win_then_block :
    ∀ (cfg : Config) (s : GameState),
      ((∃ r c, r < cfg.rows ∧ c < cfg.cols ∧ getCell s.board r c = none ∧
          check_win cfg (setCell s.board r c (some .O)) .O = true) →
        ∃ r c, r < cfg.rows ∧ c < cfg.cols ∧ getCell s.board r c = none ∧
          check_win cfg (setCell s.board r c (some .O)) .O = true ∧
          ai_move_hard cfg s = mark_square s r c .O ∧
          (∀ (u : ℚ) (pick : List (Nat × Nat) → Option (Nat × Nat)),
            u < 6/10 → ai_move_medium cfg u pick s = mark_square s r c .O)) ∧
      ((¬∃ r c, r < cfg.rows ∧ c < cfg.cols ∧ getCell s.board r c = none ∧
          check_win cfg (setCell s.board r c (some .O)) .O = true) →
        (∃ r c, r < cfg.rows ∧ c < cfg.cols ∧ getCell s.board r c = none ∧
          check_win cfg (setCell s.board r c (some .X)) .X = true) →
        ∃ r c, r < cfg.rows ∧ c < cfg.cols ∧ getCell s.board r c = none ∧
          check_win cfg (setCell s.board r c (some .X)) .X = true ∧
          ai_move_hard cfg s = mark_square s r c .O ∧
          (∀ (u : ℚ) (pick : List (Nat × Nat) → Option (Nat × Nat)),
            u < 6/10 → ai_move_medium cfg u pick s = mark_square s r c .O)) := by
  intro cfg s
  constructor
  · intro hex
    obtain ⟨r, c, hfind⟩ := findWinCell_isSome_of_exists hex
    obtain ⟨hr, hc, hcell, hwin⟩ := findWinCell_props hfind
    refine ⟨r, c, hr, hc, hcell, hwin, ?_, ?_⟩
    · rw [ai_move_hard, hfind]
      dsimp only
      exact mark_square_double_set s r c .O
    · intro u pick hu
      rw [ai_move_medium, if_pos hu, hfind]
      dsimp only
      exact mark_square_double_set s r c .O
  · intro hnone hex
    have hfnone : findWinCell cfg s.board .O = none :=
      findWinCell_eq_none_iff.mpr hnone
    obtain ⟨r, c, hfind⟩ := findWinCell_isSome_of_exists hex
    obtain ⟨hr, hc, hcell, hwin⟩ := findWinCell_props hfind
    refine ⟨r, c, hr, hc, hcell, hwin, ?_, ?_⟩
    · rw [ai_move_hard, hfnone, hfind]
    · intro u pick hu
      rw [ai_move_medium, if_pos hu, hfnone, hfind]

/-- Witness for C3 on the spec's own scenarios: with
`X X _ / O O _ / _ _ _` the AI completes its row at (1,2); with
`X X _ / _ O _ / _ _ _` (no AI win available) it blocks at (0,2). -/
theorem fast_path_win_then_block_witness :
    (∃ r c, r < 3 ∧ c < 3 ∧
      getCell [[some .X, some .X, none], [some .O, some .O, none],
        [none, none, none]] r c = none ∧
      check_win ⟨3, 3, 3⟩ (setCell [[some .X, some .X, none],
        [some .O, some .O, none], [none, none, none]] r c (some .O)) .O =
        true ∧
      ai_move_hard ⟨3, 3, 3⟩ ⟨[[some .X, some .X, none],
        [some .O, some .O, none], [none, none, none]], [], 0, .O⟩ =
        mark_square ⟨[[some .X, some .X, none], [some .O, some .O, none],
          [none, none, none]], [], 0, .O⟩ r c .O ∧
      (∀ (u : ℚ) (pick : List (Nat × Nat) → Option (Nat × Nat)),
        u < 6/10 →
        ai_move_medium ⟨3, 3, 3⟩ u pick ⟨[[some .X, some .X, none],
          [some .O, some .O, none], [none, none, none]], [], 0, .O⟩ =
          mark_square ⟨[[some .X, some .X, none], [some .O, some .O, none],
            [none, none, none]], [], 0, .O⟩ r c .O)) ∧
    (∃ r c, r < 3 ∧ c < 3 ∧
      getCell [[some .X, some .X, none], [none, some .O, none],
        [none, none, none]] r c = none ∧
      check_win ⟨3, 3, 3⟩ (setCell [[some .X, some .X, none],
        [none, some .O, none], [none, none, none]] r c (some .X)) .X =
        true ∧
      ai_move_hard ⟨3, 3, 3⟩ ⟨[[some .X, some .X, none],
        [none, some .O, none], [none, none, none]], [], 0, .O⟩ =
        mark_square ⟨[[some .X, some .X, none], [none, some .O, none],
          [none, none, none]], [], 0, .O⟩ r c .O ∧
      (∀ (u : ℚ) (pick : List (Nat × Nat) → Option (Nat × Nat)),
        u < 6/10 →
        ai_move_medium ⟨3, 3, 3⟩ u pick ⟨[[some .X, some .X, none],
          [none, some .O, none], [none, none, none]], [], 0, .O⟩ =
          mark_square ⟨[[some .X, some .X, none], [none, some .O, none],
            [none, none, none]], [], 0, .O⟩ r c .O)) :=
  ⟨(fast_path_win_then_block ⟨3, 3, 3⟩ ⟨[[some .X, some .X, none],
      [some .O, some .O, none], [none, none, none]], [], 0, .O⟩).1
      ⟨1, 2, by decide, by decide, by decide, by decide⟩,
   (fast_path_win_then_block ⟨3, 3, 3⟩ ⟨[[some .X, some .X, none],
      [none, some .O, none], [none, none, none]], [], 0, .O⟩).2
      (findWinCell_eq_none_iff.mp (by decide))
      ⟨0, 2, by decide, by decide, by decide, by decide⟩⟩

/-- C2 counterexample: the depth scaling at line 2262 multiplies a loss
score (−1) by `(depth − 10)`, which is positive at the depths the search
reaches, so a deeper AI-loss leaf scores strictly LOWER than a shallower
one (left conjunct: `X X X` row evaluated at ply 4 versus ply 2), and an
AI-loss leaf does not score below an AI-win leaf — here a loss at ply 0
scores strictly above a win at ply 2 (right conjunct). -/
theorem minimax_loss_scaling_counterexample :
    (minimax ⟨3, 3, 3⟩ 0 [[some .X, some .X, some .X],
        [some .O, some .O, none], [none, none, none]] 4 true
        (-999) 999 none).1 <
      (minimax ⟨3, 3, 3⟩ 0 [[some .X, some .X, some .X],
        [some .O, some .O, none], [none, none, none]] 2 true
        (-999) 999 none).1 ∧
    (minimax ⟨3, 3, 3⟩ 0 [[some .O, some .O, some .O],
        [some .X, some .X, none], [none, none, none]] 2 true
        (-999) 999 none).1 <
      (minimax ⟨3, 3, 3⟩ 0 [[some .X, some .X, some .X],
        [some .O, some .O, none], [none, none, none]] 0 true
        (-999) 999 none).1 := by
  constructor <;> decide

/-- C2 amended: whenever `evaluate` is nonzero at ply depth `d`, `minimax`
returns the raw score times `(10 − d)` for a win and times `(d − 10)` for
a loss, exactly as coded; this makes a shallower AI-win leaf score
strictly higher — but for losses, `(−1)·(d − 10) = 10 − d`, so a shallower
AI-loss leaf also scores strictly higher (not lower), and an AI-loss leaf
scores exactly the same as an AI-win leaf at equal depth (not strictly
below).  The intended bias toward slow losses does not hold. -/
theorem minimax_scaled_terminal_amended :
    (∀ (cfg : Config) (fuel : Nat) (b : Board) (depth : Nat) (isMax : Bool)
      (alpha beta : ℚ) (md : Option Nat),
      evaluate cfg b ≠ 0 →
      (minimax cfg fuel b depth isMax alpha beta md).1 =
        (((if evaluate cfg b > 0 then evaluate cfg b * (10 - (depth : Int))
           else evaluate cfg b * ((depth : Int) - 10)) : Int) : ℚ)) ∧
    (∀ (cfg : Config) (fuel : Nat) (b : Board) (d1 d2 : Nat) (isMax : Bool)
      (alpha beta : ℚ) (md : Option Nat),
      evaluate cfg b = 1 → d1 < d2 →
      (minimax cfg fuel b d2 isMax alpha beta md).1 <
        (minimax cfg fuel b d1 isMax alpha beta md).1) ∧
    (∀ (cfg : Config) (fuel : Nat) (b : Board) (d1 d2 : Nat) (isMax : Bool)
      (alpha beta : ℚ) (md : Option Nat),
      evaluate cfg b = -1 → d1 < d2 →
      (minimax cfg fuel b d2 isMax alpha beta md).1 <
        (minimax cfg fuel b d1 isMax alpha beta md).1) ∧
    (∀ (cfg : Config) (fuel : Nat) (bw bl : Board) (d : Nat) (isMax : Bool)
      (alpha beta : ℚ) (md : Option Nat),
      evaluate cfg bw = 1 → evaluate cfg bl = -1 →
      (minimax cfg fuel bl d isMax alpha beta md).1 =
        (minimax cfg fuel bw d isMax alpha beta md).1) := by
  have ha : ∀ (cfg : Config) (fuel : Nat) (b : Board) (depth : Nat)
      (isMax : Bool) (alpha beta : ℚ) (md : Option Nat),
      evaluate cfg b ≠ 0 →
      (minimax cfg fuel b depth isMax alpha beta md).1 =
        (((if evaluate cfg b > 0 then evaluate cfg b * (10 - (depth : Int))
           else evaluate cfg b * ((depth : Int) - 10)) : Int) : ℚ) := by
    intro cfg fuel b depth isMax alpha beta md hs
    rw [minimax_eq_score]
    rw [minimaxScore.eq_def]
    dsimp only
    rw [if_pos hs]
  refine ⟨ha, ?_, ?_, ?_⟩
  · intro cfg fuel b d1 d2 isMax alpha beta md hev h12
    rw [ha cfg fuel b d1 isMax alpha beta md (by rw [hev]; decide),
      ha cfg fuel b d2 isMax alpha beta md (by rw [hev]; decide), hev]
    have : (1 : Int) * (10 - (d2 : Int)) < 1 * (10 - (d1 : Int)) := by omega
    exact_mod_cast this
  · intro cfg fuel b d1 d2 isMax alpha beta md hev h12
    rw [ha cfg fuel b d1 isMax alpha beta md (by rw [hev]; decide),
      ha cfg fuel b d2 isMax alpha beta md (by rw [hev]; decide), hev]
    have : (-1 : Int) * ((d2 : Int) - 10) < -1 * ((d1 : Int) - 10) := by omega
    exact_mod_cast this
  · intro cfg fuel bw bl d isMax alpha beta md hw hl
    rw [ha cfg fuel bw d isMax alpha beta md (by rw [hw]; decide),
      ha cfg fuel bl d isMax alpha beta md (by rw [hl]; decide), hw, hl]
    have : (-1 : Int) * ((d : Int) - 10) = 1 * (10 - (d : Int)) := by omega
    exact_mod_cast this

/-- Witness for the amended C2, at the `X X X` and `O O O` top-row boards
and plies 0, 2, 4. -/
theorem minimax_scaled_terminal_amended_witness :
    (minimax ⟨3, 3, 3⟩ 0 [[some .X, some .X, some .X],
        [some .O, some .O, none], [none, none, none]] 2 true
        (-999) 999 none).1 =
      (((if evaluate ⟨3, 3, 3⟩ [[some .X, some .X, some .X],
            [some .O, some .O, none], [none, none, none]] > 0 then
           evaluate ⟨3, 3, 3⟩ [[some .X, some .X, some .X],
             [some .O, some .O, none], [none, none, none]] * (10 - (2 : Int))
         else
           evaluate ⟨3, 3, 3⟩ [[some .X, some .X, some .X],
             [some .O, some .O, none], [none, none, none]] *
             ((2 : Int) - 10)) : Int) : ℚ) ∧
    (minimax ⟨3, 3, 3⟩ 0 [[some .O, some .O, some .O],
        [some .X, some .X, none], [none, none, none]] 4 true
        (-999) 999 none).1 <
      (minimax ⟨3, 3, 3⟩ 0 [[some .O, some .O, some .O],
        [some .X, some .X, none], [none, none, none]] 2 true
        (-999) 999 none).1 ∧
    (minimax ⟨3, 3, 3⟩ 0 [[some .X, some .X, some .X],
        [some .O, some .O, none], [none, none, none]] 4 true
        (-999) 999 none).1 <
      (minimax ⟨3, 3, 3⟩ 0 [[some .X, some .X, some .X],
        [some .O, some .O, none], [none, none, none]] 2 true
        (-999) 999 none).1 ∧
    (minimax ⟨3, 3, 3⟩ 0 [[some .X, some .X, some .X],
        [some .O, some .O, none], [none, none, none]] 0 true
        (-999) 999 none).1 =
      (minimax ⟨3, 3, 3⟩ 0 [[some .O, some .O, some .O],
        [some .X, some .X, none], [none, none, none]] 0 true
        (-999) 999 none).1 :=
  ⟨minimax_scaled_terminal_amended.1 ⟨3, 3, 3⟩ 0 _ 2 true (-999) 999 none
     (by decide),
   minimax_scaled_terminal_amended.2.1 ⟨3, 3, 3⟩ 0 _ 2 4 true (-999) 999 none
     (by decide) (by decide),
   minimax_scaled_terminal_amended.2.2.1 ⟨3, 3, 3⟩ 0 _ 2 4 true (-999) 999
     none (by decide) (by decide),
   minimax_scaled_terminal_amended.2.2.2 ⟨3, 3, 3⟩ 0 _ _ 0 true (-999) 999
     none (by decide) (by decide)⟩

set_option maxRecDepth 200000 in
set_option maxHeartbeats 16000000 in
/-- C1: the Hard AI does not play minimax-optimally; it can lose from a
reachable, still-drawable position.  After the legal opening X(0,0),
O(1,1), X(1,2) (replayed through the game loop's guarded placement), the
game is undecided and the AI has moves after which X cannot force a win —
yet `ai_move_hard` plays (2,0), after which X forces a win against every
O reply; concretely, X answers with the fork (0,2), `ai_move_hard` blocks
row 0 at (0,1), and X completes column 2 at (2,2) and wins.  The root
cause is the loss-scaling slip documented with C2: the search values an
X-win leaf as positive, exactly like an O-win leaf. -/
theorem hard_ai_loses_reachable_game :
    replay cfg33 [(0, 0), (1, 1), (1, 2)]
      ⟨[[none, none, none], [none, none, none], [none, none, none]],
        [], 0, .X⟩ = some stateQ ∧
    evaluate cfg33 boardQ = 0 ∧
    is_board_full cfg33 boardQ = false ∧
    (empty_cells cfg33 boardQ).any
      (fun om => !(xForcesWin cfg33 6 (setCell boardQ om.1 om.2 (some .O)))) =
      true ∧
    ai_move_hard cfg33 stateQ = mark_square stateQ 2 0 .O ∧
    xForcesWin cfg33 6 (setCell boardQ 2 0 (some .O)) = true ∧
    ai_move_hard cfg33 (mark_square (mark_square stateQ 2 0 .O) 0 2 .X) =
      mark_square (mark_square (mark_square stateQ 2 0 .O) 0 2 .X) 0 1 .O ∧
    check_win cfg33 (mark_square (mark_square (mark_square
      (mark_square stateQ 2 0 .O) 0 2 .X) 0 1 .O) 2 2 .X).board .X = true := by
  refine ⟨by decide, by decide, by decide, by decide, ?_, by decide,
    by decide, by decide⟩
  have h1 : findWinCell cfg33 stateQ.board .O = none := by decide
  have h2 : findWinCell cfg33 stateQ.board .X = none := by decide
  have hres : (hardLoopScore cfg33 (empty_cells cfg33 stateQ.board).length
      (sortByPriority cfg33 (empty_cells cfg33 stateQ.board)) stateQ.board
      (-999) none (-999) 999).2 = some (2, 0) := by decide
  rw [ai_move_hard_search cfg33 stateQ h1 h2, hres]

end TTT
